import Mathlib

/-!
Shallow embedding of `OpenSeaData2ODV.py`: a declarative column-mapping
engine that converts Helgoland OpenSea spreadsheet tables to ODV generic
spreadsheet tables.  Cell values are modelled by `Val` (integer, string,
or the pandas `NA`/`NaN` missing sentinel); a row-table by `Table`
(an index length `nrows` plus an ordered association list of named
columns); the rule dictionaries of `SPEC` by the record `Rule` whose four
optional fields mirror the four possible dictionary keys.
-/

/-- A scalar cell value: integer, string, or the missing sentinel
(pandas `NA`/`NaN`). -/
inductive Val where
  | int (n : Int)
  | str (s : String)
  | na
deriving DecidableEq, Repr

/-- A row-table: `nrows` is the length of the index, `cols` the ordered
list of (column name, column values) pairs. -/
structure Table where
  nrows : Nat
  cols : List (String × List Val)
deriving DecidableEq, Repr

/-- Well-formedness: every column holds exactly `nrows` values. -/
def Table.wf (t : Table) : Bool :=
  t.cols.all (fun c => c.2.length == t.nrows)

/-- Column lookup by name (`df[name]` / `name in df.columns`). -/
def Table.getCol (t : Table) (name : String) : Option (List Val) :=
  (t.cols.find? (fun c => c.1 == name)).map Prod.snd

/-- `name in df.columns`. -/
def Table.hasCol (t : Table) (name : String) : Bool :=
  t.cols.any (fun c => c.1 == name)

/-- The ordered list of column names (`df.columns`). -/
def Table.columns (t : Table) : List String :=
  t.cols.map Prod.fst

/-- Column assignment `df[name] = col`: replaces the column in place when
the name exists, otherwise appends it at the end (pandas semantics). -/
def Table.setCol (t : Table) (name : String) (col : List Val) : Table :=
  if t.hasCol name then
    ⟨t.nrows, t.cols.map (fun c => if c.1 == name then (name, col) else c)⟩
  else
    ⟨t.nrows, t.cols ++ [(name, col)]⟩

/-- Python `str()` of a cell value. -/
def valStr : Val → String
  | Val.int n => toString n
  | Val.str s => s
  | Val.na => "nan"

/-- `.astype(int)` on one cell: integers pass through, strings are parsed,
a missing value cannot be coerced. -/
def Val.toInt? : Val → Option Int
  | Val.int n => some n
  | Val.str s => s.toInt?
  | Val.na => none

/-- Python `str.zfill`: left-pad with `0` to the given width, keeping a
leading sign in front of the padding. -/
def zfill (width : Nat) (s : String) : String :=
  if width ≤ s.length then s
  else
    let pad := String.mk (List.replicate (width - s.length) '0')
    match s.data with
    | '+' :: rest => "+" ++ pad ++ String.mk rest
    | '-' :: rest => "-" ++ pad ++ String.mk rest
    | _ => pad ++ s

/-- The per-row time suffix built on lines 46-53 of the source:
`""` for a missing time value, `"T" + str(v)` otherwise. -/
def timeSuffix : Val → String
  | Val.na => ""
  | v => "T" ++ valStr v

/-- The per-row date part built on lines 55-61 of the source:
`str(int(year)) + "-" + str(int(month)).zfill(2) + "-" + str(int(day)).zfill(2)`. -/
def dayPart (y m d : Int) : String :=
  toString y ++ "-" ++ zfill 2 (toString m) ++ "-" ++ zfill 2 (toString d)

/-- Element-wise combination of four equally long columns. -/
def zipWith4 (f : α → β → γ → δ → ε) : List α → List β → List γ → List δ → List ε
  | a :: as, b :: bs, c :: cs, d :: ds => f a b c d :: zipWith4 f as bs cs ds
  | _, _, _, _ => []

/-- The `xtime` column built on lines 44-53 of the source: per-row time
suffixes when a `Time` column exists, the all-empty column otherwise. -/
def xtimeList (df : Table) : List String :=
  match df.getCol "Time" with
  | some tcol => tcol.map timeSuffix
  | none => List.replicate df.nrows ""

/-- The row-wise date strings of `date_to_iso` once the `Year`, `Month`
and `Day` columns have been looked up: coerce each to integers (`none`
models the exception on a non-coercible value) and concatenate the date
part with the time suffix, element-wise. -/
def dateRows (df : Table) (ycol mcol dcol : List Val) : Option (List Val) :=
  match ycol.mapM Val.toInt?, mcol.mapM Val.toInt?, dcol.mapM Val.toInt? with
  | some ys, some ms, some ds =>
    some (zipWith4 (fun y m d t => Val.str (dayPart y m d ++ t)) ys ms ds (xtimeList df))
  | _, _, _ => none

/-- `date_to_iso` (source lines 43-62): build the per-row ISO date string
from the `Year`, `Month`, `Day` columns plus an optional `Time` column.
`none` models the exception raised when `Year`/`Month`/`Day` is absent or
a value cannot be coerced to an integer. -/
def date_to_iso (df : Table) : Option (List Val) :=
  match df.getCol "Year", df.getCol "Month", df.getCol "Day" with
  | some ycol, some mcol, some dcol => dateRows df ycol mcol dcol
  | _, _, _ => none

/-- The functions that appear as `"fn"` rules in `SPEC`. -/
inductive FnName where
  | add_station_name
  | date_to_iso
deriving DecidableEq, Repr

/-- Apply an `"fn"` rule's function and broadcast its result over the
index: `add_station_name` (source lines 65-66) returns the scalar sheet
name, which pandas broadcasts to every row; `date_to_iso` returns a
per-row column. -/
def evalFn : FnName → Table → String → Option (List Val)
  | FnName.add_station_name, df, sheet => some (List.replicate df.nrows (Val.str sheet))
  | FnName.date_to_iso, df, _ => date_to_iso df

/-- A rule dictionary: each optional field mirrors the presence of the
corresponding key (`"fn"`, `"src"`, `"ref"`, `"const"`). -/
structure Rule where
  fn : Option FnName
  src : Option String
  ref : Option String
  const : Option Val
deriving DecidableEq, Repr

/-- The `if/elif` dispatch of `transform_one_file` (source lines 116-126):
`"fn"` first, then `"src"`, then `"ref"`, then `"const"`, and `pd.NA`
when none of the keys is present.  A missing `"ref"` target is a KeyError,
hence `none`. -/
def applyRule (df : Table) (sheet : String) (out : Table) (rule : Rule) : Option (List Val) :=
  match rule.fn with
  | some f => evalFn f df sheet
  | none =>
    match rule.src with
    | some s => some ((df.getCol s).getD (List.replicate df.nrows Val.na))
    | none =>
      match rule.ref with
      | some r => out.getCol r
      | none =>
        match rule.const with
        | some v => some (List.replicate df.nrows v)
        | none => some (List.replicate df.nrows Val.na)

/-- The loop body of `transform_one_file`: process the remaining spec
entries, one column assignment per entry. -/
def transformGo (df : Table) (sheet : String) (out : Table) : List (String × Rule) → Option Table
  | [] => some out
  | e :: rest =>
    match applyRule df sheet out e.2 with
    | none => none
    | some col => transformGo df sheet (out.setCol e.1 col) rest

/-- `transform_one_file` (source lines 112-127), parametric in the spec:
start from an empty output frame sharing the input's index and process
the spec entries in order. -/
def transform_one_file (spec : List (String × Rule)) (df : Table) (sheet : String) : Option Table :=
  transformGo df sheet ⟨df.nrows, []⟩ spec

def CRUISE_NAME : String := "Helgoland_OpenSea"

def TYPE_NAME : String := "B"

/-- Rule constructors, mirroring the one-key dictionaries of `SPEC`. -/
def mkConst (v : String) : Rule := ⟨none, none, none, some (Val.str v)⟩

def mkFn (f : FnName) : Rule := ⟨some f, none, none, none⟩

def mkSrc (s : String) : Rule := ⟨none, some s, none, none⟩

def mkRef (r : String) : Rule := ⟨none, none, some r, none⟩

/-- `SPEC` (source lines 82-108): the ordered data model. -/
def SPEC : List (String × Rule) := [
  ("Cruise", mkConst CRUISE_NAME),
  ("Station", mkFn FnName.add_station_name),
  ("Type", mkConst TYPE_NAME),
  ("yyyy-mm-ddThh:mm", mkFn FnName.date_to_iso),
  ("xlon", mkSrc "Longitude [degrees_east]"),
  ("xlat", mkSrc "Latitude [degrees_north]"),
  ("time_ISO8601", mkRef "yyyy-mm-ddThh:mm"),
  ("Temperature Sea [~^o~#C]", mkSrc "Temperature °C (Sea)"),
  ("Temperature Air [~^o~#C]", mkSrc "Temperature °C (Air)"),
  ("pH", mkSrc "pH-value"),
  ("Practical Salinity", mkSrc "Salinity (‰)"),
  ("Wind Speed [m/s]", mkSrc "Wind speed (m/s)"),
  ("Illuminance [lux]", mkSrc "Light intensity (lux)"),
  ("Secchi depth [m]", mkSrc "Secchi depth (m)"),
  ("Euphotic zone (Secchi depth x 2) [m]", mkSrc "Euphotic zone (Secchi depth x 2) (m)"),
  ("1/2 Secchi depth [m]", mkSrc "1/2 Secchi depth (m)"),
  ("Color of Forel-Ule scale at 1/2 Secchi depth", mkSrc "Color of Forel-Ule scale at 1/2 Secchi depth"),
  ("Time TNW", mkSrc "Time TNW"),
  ("Weather", mkSrc "Weather"),
  ("Group", mkSrc "Group"),
  ("Comment", mkSrc "Comment"),
  ("Measurement instrument", mkSrc "Measurement instrument")
]

/-- Vertical concatenation of two tables sharing one column schema
(`pd.concat` on outputs of the same spec). -/
def concat2 (a b : Table) : Table :=
  ⟨a.nrows + b.nrows, a.cols.map (fun c => (c.1, c.2 ++ (b.getCol c.1).getD []))⟩

/-- `pd.concat(rows, ignore_index=True)` over a list of same-schema tables. -/
def concatTables : List Table → Table
  | [] => ⟨0, []⟩
  | t :: ts => ts.foldl concat2 t

/-- The aggregation loop of `main` (source lines 161-170), abstracted over
the already-parsed (table, sheet name) pairs: transform each unit, then
concatenate all outputs in unit order. -/
def aggregate (units : List (Table × String)) : Option Table :=
  (units.mapM (fun u => transform_one_file SPEC u.1 u.2)).map concatTables

/-- Modelled from the spec: the `CoordinateDecoder` component (`decode`)
is described in the spec but absent from the repository's single source
file (the longitude/latitude columns are plain `src` copies there).
Decodes a packed integer `D*1000000 + MMM*1000 + SSS` (sign carried
separately) as `sign * (deg + (mmm*60/1000)/60 + (sss*60/1000)/3600)`,
with exact rational arithmetic standing in for floating point. -/
def decode (raw : Int) : ℚ :=
  let sign : ℚ := if raw < 0 then -1 else 1
  let x : Nat := raw.natAbs
  let deg : Nat := x / 1000000
  let mmm : Nat := (x / 1000) % 1000
  let sss : Nat := x % 1000
  let minutes : ℚ := (mmm : ℚ) * 60 / 1000
  let seconds : ℚ := (sss : ℚ) * 60 / 1000
  sign * ((deg : ℚ) + minutes / 60 + seconds / 3600)

/-- The column a `src` rule produces: the input column when present,
otherwise a column of missing values (source line 120). -/
def srcCol (df : Table) (s : String) : List Val :=
  (df.getCol s).getD (List.replicate df.nrows Val.na)

/-- The output table `transform_one_file` builds for the concrete `SPEC`
once the date column `dcol` is known. -/
def explicitTable (df : Table) (sheet : String) (dcol : List Val) : Table :=
  ⟨df.nrows, [
    ("Cruise", List.replicate df.nrows (Val.str CRUISE_NAME)),
    ("Station", List.replicate df.nrows (Val.str sheet)),
    ("Type", List.replicate df.nrows (Val.str TYPE_NAME)),
    ("yyyy-mm-ddThh:mm", dcol),
    ("xlon", srcCol df "Longitude [degrees_east]"),
    ("xlat", srcCol df "Latitude [degrees_north]"),
    ("time_ISO8601", dcol),
    ("Temperature Sea [~^o~#C]", srcCol df "Temperature °C (Sea)"),
    ("Temperature Air [~^o~#C]", srcCol df "Temperature °C (Air)"),
    ("pH", srcCol df "pH-value"),
    ("Practical Salinity", srcCol df "Salinity (‰)"),
    ("Wind Speed [m/s]", srcCol df "Wind speed (m/s)"),
    ("Illuminance [lux]", srcCol df "Light intensity (lux)"),
    ("Secchi depth [m]", srcCol df "Secchi depth (m)"),
    ("Euphotic zone (Secchi depth x 2) [m]", srcCol df "Euphotic zone (Secchi depth x 2) (m)"),
    ("1/2 Secchi depth [m]", srcCol df "1/2 Secchi depth (m)"),
    ("Color of Forel-Ule scale at 1/2 Secchi depth", srcCol df "Color of Forel-Ule scale at 1/2 Secchi depth"),
    ("Time TNW", srcCol df "Time TNW"),
    ("Weather", srcCol df "Weather"),
    ("Group", srcCol df "Group"),
    ("Comment", srcCol df "Comment"),
    ("Measurement instrument", srcCol df "Measurement instrument")]⟩

/-- A sample well-formed input table with two rows, used by the concrete
witnesses: row 0 has a time value, row 1 has a missing time value. -/
def sampleDF : Table :=
  ⟨2, [("Year", [Val.int 2024, Val.int 2024]), ("Month", [Val.int 3, Val.int 11]),
       ("Day", [Val.int 7, Val.int 25]), ("Time", [Val.str "10:00", Val.na]),
       ("Longitude [degrees_east]", [Val.str "7E", Val.str "7E"]),
       ("pH-value", [Val.int 8, Val.int 8])]⟩

/-- A sample three-row input table without a `Time` column. -/
def sampleDF3 : Table :=
  ⟨3, [("Year", [Val.int 2023, Val.int 2023, Val.int 2023]),
       ("Month", [Val.int 1, Val.int 2, Val.int 3]),
       ("Day", [Val.int 4, Val.int 5, Val.int 6])]⟩

/-- The transformed output of `sampleDF`. -/
def sampleOut : Table :=
  (transform_one_file SPEC sampleDF "Abiotics Sea").getD ⟨0, []⟩

/-- The transformed output of `sampleDF3`. -/
def sampleOut3 : Table :=
  (transform_one_file SPEC sampleDF3 "Abiotics Pool").getD ⟨0, []⟩

theorem transform_SPEC_eq (df : Table) (sheet : String) :
    transform_one_file SPEC df sheet = (date_to_iso df).map (explicitTable df sheet) := by
  cases hd : date_to_iso df with
  | none =>
    simp [transform_one_file, SPEC, transformGo, applyRule, evalFn, mkConst, mkFn, mkSrc,
      Table.setCol, Table.hasCol, hd]
  | some dcol =>
    simp [transform_one_file, SPEC, transformGo, applyRule, evalFn, mkConst, mkFn, mkSrc, mkRef,
      Table.setCol, Table.hasCol, Table.getCol, hd, explicitTable, srcCol]

theorem setCol_nrows (t : Table) (name : String) (col : List Val) :
    (t.setCol name col).nrows = t.nrows := by
  unfold Table.setCol
  split <;> rfl

theorem transformGo_nrows (df : Table) (sheet : String) :
    ∀ (spec : List (String × Rule)) (out t : Table),
      transformGo df sheet out spec = some t → t.nrows = out.nrows := by
  intro spec
  induction spec with
  | nil => intro out t h; simp [transformGo] at h; rw [← h]
  | cons e rest ih =>
    intro out t h
    simp only [transformGo] at h
    cases hc : applyRule df sheet out e.2 with
    | none => rw [hc] at h; simp at h
    | some col =>
      rw [hc] at h
      have := ih (out.setCol e.1 col) t h
      rw [this, setCol_nrows]

theorem mapM_some_length (f : α → Option β) :
    ∀ (l : List α) (res : List β), l.mapM f = some res → res.length = l.length := by
  intro l
  induction l with
  | nil => intro res h; simp [List.mapM, List.mapM.loop] at h; simp [← h]
  | cons a as ih =>
    intro res h
    rw [List.mapM_cons] at h
    cases hb : f a with
    | none => rw [hb] at h; simp at h
    | some b =>
      rw [hb] at h
      cases hbs : as.mapM f with
      | none => rw [hbs] at h; simp at h
      | some bs =>
        rw [hbs] at h
        simp at h
        rw [← h]
        simp [ih bs hbs]

theorem zipWith4_length_eq (f : α → β → γ → δ → ε) :
    ∀ (as : List α) (bs : List β) (cs : List γ) (ds : List δ),
      (zipWith4 f as bs cs ds).length =
        min (min (min as.length bs.length) cs.length) ds.length := by
  intro as
  induction as with
  | nil => intro bs cs ds; simp [zipWith4]
  | cons a as ih =>
    intro bs cs ds
    cases bs with
    | nil => simp [zipWith4]
    | cons b bs =>
      cases cs with
      | nil => simp [zipWith4]
      | cons c cs =>
        cases ds with
        | nil => simp [zipWith4]
        | cons d ds =>
          simp [zipWith4, ih bs cs ds]
          omega

theorem zipWith4_getD (f : α → β → γ → δ → ε) (e : ε) (a₀ : α) (b₀ : β) (c₀ : γ) (d₀ : δ) :
    ∀ (as : List α) (bs : List β) (cs : List γ) (ds : List δ) (i : Nat),
      i < as.length → i < bs.length → i < cs.length → i < ds.length →
      (zipWith4 f as bs cs ds).getD i e =
        f (as.getD i a₀) (bs.getD i b₀) (cs.getD i c₀) (ds.getD i d₀) := by
  intro as
  induction as with
  | nil => intro bs cs ds i h; simp at h
  | cons a as ih =>
    intro bs cs ds i ha hb hc hd
    cases bs with
    | nil => simp at hb
    | cons b bs =>
      cases cs with
      | nil => simp at hc
      | cons c cs =>
        cases ds with
        | nil => simp at hd
        | cons d ds =>
          cases i with
          | zero => simp [zipWith4]
          | succ j =>
            simp only [zipWith4, List.getD_cons_succ]
            exact ih bs cs ds j (by simpa using ha) (by simpa using hb)
              (by simpa using hc) (by simpa using hd)

theorem getD_of_replicate (x d : α) :
    ∀ (n i : Nat), i < n → (List.replicate n x).getD i d = x := by
  intro n
  induction n with
  | zero => intro i h; omega
  | succ m ih =>
    intro i h
    cases i with
    | zero => simp [List.replicate]
    | succ j =>
      rw [List.replicate_succ, List.getD_cons_succ]
      exact ih j (by omega)

theorem getD_of_map (f : α → β) (d : β) (d' : α) :
    ∀ (l : List α) (i : Nat), i < l.length → (l.map f).getD i d = f (l.getD i d') := by
  intro l
  induction l with
  | nil => intro i h; simp at h
  | cons a as ih =>
    intro i h
    cases i with
    | zero => simp
    | succ j =>
      rw [List.map_cons, List.getD_cons_succ, List.getD_cons_succ]
      exact ih j (by simpa using h)

theorem getCol_length (t : Table) (name : String) (c : List Val)
    (hwf : t.wf = true) (h : t.getCol name = some c) : c.length = t.nrows := by
  unfold Table.getCol at h
  cases hfind : t.cols.find? (fun p => p.1 == name) with
  | none => rw [hfind] at h; simp at h
  | some p =>
    rw [hfind] at h
    simp at h
    have hmem := List.mem_of_find?_eq_some hfind
    have hall := List.all_eq_true.mp hwf p hmem
    simp at hall
    rw [← h]
    exact hall

theorem srcCol_length (df : Table) (s : String) (hwf : df.wf = true) :
    (srcCol df s).length = df.nrows := by
  unfold srcCol
  cases h : df.getCol s with
  | none => simp
  | some c => simp [getCol_length df s c hwf h]

theorem xtimeList_length (df : Table) (hwf : df.wf = true) :
    (xtimeList df).length = df.nrows := by
  unfold xtimeList
  cases h : df.getCol "Time" with
  | none => simp
  | some tcol => simp [getCol_length df "Time" tcol hwf h]

theorem date_to_iso_char (df : Table) (ycol mcol dcol : List Val) (ys ms ds : List Int)
    (hY : df.getCol "Year" = some ycol) (hM : df.getCol "Month" = some mcol)
    (hD : df.getCol "Day" = some dcol)
    (hys : ycol.mapM Val.toInt? = some ys) (hms : mcol.mapM Val.toInt? = some ms)
    (hds : dcol.mapM Val.toInt? = some ds) :
    date_to_iso df =
      some (zipWith4 (fun y m d t => Val.str (dayPart y m d ++ t)) ys ms ds (xtimeList df)) := by
  unfold date_to_iso
  rw [hY, hM, hD]
  show dateRows df ycol mcol dcol = _
  unfold dateRows
  rw [hys, hms, hds]

theorem date_to_iso_length (df : Table) (res : List Val) (hwf : df.wf = true)
    (h : date_to_iso df = some res) : res.length = df.nrows := by
  unfold date_to_iso at h
  cases hY : df.getCol "Year" with
  | none => rw [hY] at h; simp at h
  | some ycol =>
  cases hM : df.getCol "Month" with
  | none => rw [hY, hM] at h; simp at h
  | some mcol =>
  cases hD : df.getCol "Day" with
  | none => rw [hY, hM, hD] at h; simp at h
  | some dcol =>
  rw [hY, hM, hD] at h
  have h' : dateRows df ycol mcol dcol = some res := h
  unfold dateRows at h'
  cases hys : ycol.mapM Val.toInt? with
  | none => rw [hys] at h'; simp at h'
  | some ys =>
  rw [hys] at h'
  cases hms : mcol.mapM Val.toInt? with
  | none => rw [hms] at h'; simp at h'
  | some ms =>
  rw [hms] at h'
  cases hds : dcol.mapM Val.toInt? with
  | none => rw [hds] at h'; simp at h'
  | some ds =>
  rw [hds] at h'
  simp at h'
  have hyl : ys.length = df.nrows := by
    rw [mapM_some_length Val.toInt? ycol ys hys]
    exact getCol_length df "Year" ycol hwf hY
  have hml : ms.length = df.nrows := by
    rw [mapM_some_length Val.toInt? mcol ms hms]
    exact getCol_length df "Month" mcol hwf hM
  have hdl : ds.length = df.nrows := by
    rw [mapM_some_length Val.toInt? dcol ds hds]
    exact getCol_length df "Day" dcol hwf hD
  have hxl : (xtimeList df).length = df.nrows := xtimeList_length df hwf
  rw [← h', zipWith4_length_eq]
  omega

theorem explicitTable_wf (df : Table) (sheet : String) (dcol : List Val)
    (hwf : df.wf = true) (hlen : dcol.length = df.nrows) :
    (explicitTable df sheet dcol).wf = true := by
  simp [Table.wf, explicitTable, List.all_cons, List.all_nil, hlen,
    srcCol_length _ _ hwf]

theorem xtimeList_getD_some (df : Table) (tcol : List Val) (i : Nat)
    (ht : df.getCol "Time" = some tcol) (hi : i < tcol.length) :
    (xtimeList df).getD i "" = timeSuffix (tcol.getD i Val.na) := by
  unfold xtimeList
  rw [ht]
  exact getD_of_map timeSuffix "" Val.na tcol i hi

theorem xtimeList_getD_none (df : Table) (i : Nat)
    (ht : df.getCol "Time" = none) (hi : i < df.nrows) :
    (xtimeList df).getD i "" = "" := by
  unfold xtimeList
  rw [ht]
  exact getD_of_replicate "" "" df.nrows i hi

theorem timeSuffix_ne_na (v : Val) (h : v ≠ Val.na) :
    timeSuffix v = "T" ++ valStr v := by
  cases v with
  | int n => rfl
  | str s => rfl
  | na => exact absurd rfl h

theorem date_to_iso_getD (df : Table) (ycol mcol dcol res : List Val) (ys ms ds : List Int)
    (hwf : df.wf = true)
    (hY : df.getCol "Year" = some ycol) (hM : df.getCol "Month" = some mcol)
    (hD : df.getCol "Day" = some dcol)
    (hys : ycol.mapM Val.toInt? = some ys) (hms : mcol.mapM Val.toInt? = some ms)
    (hds : dcol.mapM Val.toInt? = some ds)
    (hres : date_to_iso df = some res) (i : Nat) (hi : i < df.nrows) :
    res.getD i Val.na =
      Val.str (dayPart (ys.getD i 0) (ms.getD i 0) (ds.getD i 0) ++ (xtimeList df).getD i "") := by
  have hchar := date_to_iso_char df ycol mcol dcol ys ms ds hY hM hD hys hms hds
  rw [hres] at hchar
  have hres' : res =
      zipWith4 (fun y m d t => Val.str (dayPart y m d ++ t)) ys ms ds (xtimeList df) :=
    Option.some.inj hchar
  have hyl : ys.length = df.nrows := by
    rw [mapM_some_length Val.toInt? ycol ys hys]
    exact getCol_length df "Year" ycol hwf hY
  have hml : ms.length = df.nrows := by
    rw [mapM_some_length Val.toInt? mcol ms hms]
    exact getCol_length df "Month" mcol hwf hM
  have hdl : ds.length = df.nrows := by
    rw [mapM_some_length Val.toInt? dcol ds hds]
    exact getCol_length df "Day" dcol hwf hD
  have hxl : (xtimeList df).length = df.nrows := xtimeList_length df hwf
  rw [hres']
  exact zipWith4_getD _ Val.na 0 0 0 "" ys ms ds (xtimeList df) i
    (by omega) (by omega) (by omega) (by omega)

theorem concat2_getCol (a b : Table) (name : String) :
    (concat2 a b).getCol name =
      (a.getCol name).map (fun c => c ++ (b.getCol name).getD []) := by
  unfold concat2 Table.getCol
  induction a.cols with
  | nil => rfl
  | cons p ps ih =>
    simp only [List.map_cons, List.find?]
    cases hp : (p.1 == name) with
    | false => simpa [hp] using ih
    | true =>
      have : p.1 = name := by simpa using hp
      subst this
      simp


theorem concat2_nrows (a b : Table) : (concat2 a b).nrows = a.nrows + b.nrows := rfl

theorem foldl_concat2_nrows :
    ∀ (rest : List Table) (acc : Table),
      (List.foldl concat2 acc rest).nrows = acc.nrows + (rest.map Table.nrows).sum := by
  intro rest
  induction rest with
  | nil => intro acc; simp
  | cons t rest ih =>
    intro acc
    simp only [List.foldl, List.map_cons, List.sum_cons]
    rw [ih (concat2 acc t), concat2_nrows]
    omega

theorem concatTables_nrows (ts : List Table) :
    (concatTables ts).nrows = (ts.map Table.nrows).sum := by
  cases ts with
  | nil => rfl
  | cons t rest =>
    show (List.foldl concat2 t rest).nrows = _
    rw [foldl_concat2_nrows rest t]
    simp

theorem mapM_transform_nrows :
    ∀ (units : List (Table × String)) (ts : List Table),
      units.mapM (fun u => transform_one_file SPEC u.1 u.2) = some ts →
      ts.map Table.nrows = units.map (fun u => u.1.nrows) := by
  intro units
  induction units with
  | nil => intro ts h; simp [List.mapM, List.mapM.loop] at h; simp [← h]
  | cons u rest ih =>
    intro ts h
    rw [List.mapM_cons] at h
    cases hu : transform_one_file SPEC u.1 u.2 with
    | none => rw [hu] at h; simp at h
    | some t =>
      rw [hu] at h
      cases hrest : rest.mapM (fun u => transform_one_file SPEC u.1 u.2) with
      | none => rw [hrest] at h; simp at h
      | some ts2 =>
        rw [hrest] at h
        simp at h
        rw [← h]
        simp [ih ts2 hrest, transformGo_nrows u.1 u.2 SPEC ⟨u.1.nrows, []⟩ t hu]

theorem foldl_concat2_getCol (name : String) :
    ∀ (rest : List Table) (acc : Table) (c : List Val) (cs : List (List Val)),
      acc.getCol name = some c →
      rest.mapM (fun t => t.getCol name) = some cs →
      (List.foldl concat2 acc rest).getCol name = some (c ++ cs.flatten) := by
  intro rest
  induction rest with
  | nil =>
    intro acc c cs hacc hm
    simp [List.mapM, List.mapM.loop] at hm
    subst hm
    simp [hacc]
  | cons t rest ih =>
    intro acc c cs hacc hm
    rw [List.mapM_cons] at hm
    cases hc : t.getCol name with
    | none => rw [hc] at hm; simp at hm
    | some c2 =>
      rw [hc] at hm
      cases hcs : rest.mapM (fun t => t.getCol name) with
      | none => rw [hcs] at hm; simp at hm
      | some cs2 =>
        rw [hcs] at hm
        simp at hm
        subst hm
        have hacc2 : (concat2 acc t).getCol name = some (c ++ c2) := by
          rw [concat2_getCol, hacc]
          simp [hc]
        have hres := ih (concat2 acc t) (c ++ c2) cs2 hacc2 hcs
        show (List.foldl concat2 (concat2 acc t) rest).getCol name = _
        rw [hres]
        simp [List.append_assoc]

/-- Claim C1: for every well-formed input row-table and every context
label, the table returned by `transform_one_file SPEC` has exactly the
columns named in `SPEC`, in `SPEC` declaration order, and the same number
of rows as the input table (every column holds `df.nrows` values). -/
theorem C1_column_fidelity (df : Table) (sheet : String) (t : Table)
    (hwf : df.wf = true) (h : transform_one_file SPEC df sheet = some t) :
    t.columns = SPEC.map Prod.fst ∧ t.nrows = df.nrows ∧ t.wf = true := by
  rw [transform_SPEC_eq] at h
  cases hd : date_to_iso df with
  | none => rw [hd] at h; simp at h
  | some dcol =>
    rw [hd] at h
    simp at h
    subst h
    refine ⟨rfl, rfl, ?_⟩
    exact explicitTable_wf df sheet dcol hwf (date_to_iso_length df dcol hwf hd)

/-- Concrete instance of `C1_column_fidelity` on `sampleDF`. -/
theorem C1_witness :
    sampleDF.wf = true ∧
    (sampleOut.columns = SPEC.map Prod.fst ∧ sampleOut.nrows = sampleDF.nrows ∧
      sampleOut.wf = true) :=
  ⟨by decide, C1_column_fidelity sampleDF "Abiotics Sea" sampleOut (by decide) (by decide)⟩

/-- Claim C2 (on the spec-modelled `CoordinateDecoder`, absent from the
source): `decode 52301500` equals `52 + 18.06/60 + 30.0/3600` within
tolerance `1e-9` (exactly, in rational arithmetic), and `decode 0 = 0`. -/
theorem C2_decoder_concrete :
    |decode 52301500 - ((52 : ℚ) + (1806 / 100) / 60 + 30 / 3600)| ≤ 1 / 1000000000 ∧
    decode 0 = 0 := by
  constructor
  · norm_num [decode]
  · norm_num [decode]

/-- Claim C5: a `src` rule entry copies the named input column verbatim
when it is present, and otherwise fills every row with the `Val.na`
missing sentinel instead of raising an error; the sentinel is distinct
from zero and from the empty string. -/
theorem C5_source_rule_fallback (df : Table) (sheet : String) (out : Table) (s : String) :
    applyRule df sheet out (mkSrc s) =
      some (match df.getCol s with
            | some col => col
            | none => List.replicate df.nrows Val.na) ∧
    Val.na ≠ Val.int 0 ∧ Val.na ≠ Val.str "" := by
  refine ⟨?_, by decide, by decide⟩
  cases hc : df.getCol s <;> simp [applyRule, mkSrc, hc]

/-- Claim C6: in every successful transform under `SPEC`, the output
column of the reference entry `"time_ISO8601"` is identical, row for row,
to the output column of the referenced date entry `"yyyy-mm-ddThh:mm"`. -/
theorem C6_reference_integrity (df : Table) (sheet : String) (t : Table)
    (h : transform_one_file SPEC df sheet = some t) :
    ∃ c, t.getCol "yyyy-mm-ddThh:mm" = some c ∧ t.getCol "time_ISO8601" = some c := by
  rw [transform_SPEC_eq] at h
  cases hd : date_to_iso df with
  | none => rw [hd] at h; simp at h
  | some dcol =>
    rw [hd] at h
    simp at h
    subst h
    exact ⟨dcol, rfl, rfl⟩

/-- Concrete instance of `C6_reference_integrity` on `sampleDF`. -/
theorem C6_witness :
    sampleOut.getCol "yyyy-mm-ddThh:mm" =
      some [Val.str "2024-03-07T10:00", Val.str "2024-11-25"] ∧
    sampleOut.getCol "time_ISO8601" =
      some [Val.str "2024-03-07T10:00", Val.str "2024-11-25"] := by
  obtain ⟨c, h1, h2⟩ := C6_reference_integrity sampleDF "Abiotics Sea" sampleOut (by decide)
  have hc : c = [Val.str "2024-03-07T10:00", Val.str "2024-11-25"] := by
    have hv : sampleOut.getCol "yyyy-mm-ddThh:mm" =
        some [Val.str "2024-03-07T10:00", Val.str "2024-11-25"] := by decide
    rw [h1] at hv
    exact Option.some.inj hv
  exact ⟨hc ▸ h1, hc ▸ h2⟩

/-- Claim C8: when a rule dictionary carries more than one tag, dispatch
follows the fixed precedence `fn` over `src` over `ref` over `const`:
with `fn` present the function is applied whatever else the rule carries;
with `fn` absent, `src` wins over `ref` and `const`; then `ref`; then
`const`. -/
theorem C8_rule_precedence (df : Table) (sheet : String) (out : Table)
    (f : FnName) (s r : String) (v : Val)
    (os orf : Option String) (oc : Option Val) :
    applyRule df sheet out ⟨some f, os, orf, oc⟩ = evalFn f df sheet ∧
    applyRule df sheet out ⟨none, some s, orf, oc⟩ =
      some ((df.getCol s).getD (List.replicate df.nrows Val.na)) ∧
    applyRule df sheet out ⟨none, none, some r, oc⟩ = out.getCol r ∧
    applyRule df sheet out ⟨none, none, none, some v⟩ = some (List.replicate df.nrows v) :=
  ⟨rfl, rfl, rfl, rfl⟩

/-- Claim C9: a rule dictionary that carries none of the tags `fn`,
`src`, `ref`, `const` raises no error: the output column is silently
filled with the `Val.na` missing sentinel for every row, both at the
dispatch level and through a whole transform. -/
theorem C9_unknown_rule_missing_fill (df : Table) (sheet : String) (out : Table)
    (name : String) :
    applyRule df sheet out ⟨none, none, none, none⟩ =
      some (List.replicate df.nrows Val.na) ∧
    transform_one_file [(name, ⟨none, none, none, none⟩)] df sheet =
      some ⟨df.nrows, [(name, List.replicate df.nrows Val.na)]⟩ :=
  ⟨rfl, rfl⟩

/-- Claim C10: for every input table and unit label, every row of the
`"Station"` output column equals the unit's sheet-name label, broadcast
unchanged to all rows. -/
theorem C10_station_broadcast (df : Table) (sheet : String) (t : Table)
    (h : transform_one_file SPEC df sheet = some t) :
    t.getCol "Station" = some (List.replicate df.nrows (Val.str sheet)) := by
  rw [transform_SPEC_eq] at h
  cases hd : date_to_iso df with
  | none => rw [hd] at h; simp at h
  | some dcol =>
    rw [hd] at h
    simp at h
    subst h
    rfl

/-- Concrete instance of `C10_station_broadcast` on `sampleDF`. -/
theorem C10_witness :
    sampleOut.getCol "Station" = some (List.replicate sampleDF.nrows (Val.str "Abiotics Sea")) :=
  C10_station_broadcast sampleDF "Abiotics Sea" sampleOut (by decide)

/-- Claim C3: in the day/time-precision date composition, a row whose
`Time` value exists and is not missing gets `"T" ++ str(time)` appended
to its date part; a row whose `Time` value is missing gets nothing
appended (no literal `"T"`); when no `Time` column exists, nothing is
appended for any row. -/
theorem C3_time_suffix_cases (df : Table) (ycol mcol dcol res : List Val)
    (ys ms ds : List Int) (hwf : df.wf = true)
    (hY : df.getCol "Year" = some ycol) (hM : df.getCol "Month" = some mcol)
    (hD : df.getCol "Day" = some dcol)
    (hys : ycol.mapM Val.toInt? = some ys) (hms : mcol.mapM Val.toInt? = some ms)
    (hds : dcol.mapM Val.toInt? = some ds)
    (hres : date_to_iso df = some res) (i : Nat) (hi : i < df.nrows) :
    (∀ tcol, df.getCol "Time" = some tcol → tcol.getD i Val.na ≠ Val.na →
        res.getD i Val.na =
          Val.str (dayPart (ys.getD i 0) (ms.getD i 0) (ds.getD i 0) ++
            ("T" ++ valStr (tcol.getD i Val.na)))) ∧
    (∀ tcol, df.getCol "Time" = some tcol → tcol.getD i Val.na = Val.na →
        res.getD i Val.na =
          Val.str (dayPart (ys.getD i 0) (ms.getD i 0) (ds.getD i 0))) ∧
    (df.getCol "Time" = none →
        res.getD i Val.na =
          Val.str (dayPart (ys.getD i 0) (ms.getD i 0) (ds.getD i 0))) := by
  have hbase := date_to_iso_getD df ycol mcol dcol res ys ms ds hwf hY hM hD hys hms hds hres i hi
  refine ⟨?_, ?_, ?_⟩
  · intro tcol ht hv
    have hlen : tcol.length = df.nrows := getCol_length df "Time" tcol hwf ht
    rw [hbase, xtimeList_getD_some df tcol i ht (by omega), timeSuffix_ne_na _ hv]
  · intro tcol ht hv
    have hlen : tcol.length = df.nrows := getCol_length df "Time" tcol hwf ht
    rw [hbase, xtimeList_getD_some df tcol i ht (by omega), hv]
    simp [timeSuffix]
  · intro ht
    rw [hbase, xtimeList_getD_none df i ht hi]
    simp

/-- Concrete instance of `C3_time_suffix_cases`: row 0 of `sampleDF` has
time value `"10:00"`, so the composed string ends in `"T10:00"`. -/
theorem C3_witness :
    ([Val.str "2024-03-07T10:00", Val.str "2024-11-25"] : List Val).getD 0 Val.na =
      Val.str (dayPart 2024 3 7 ++ ("T" ++ valStr (Val.str "10:00"))) := by
  have h := C3_time_suffix_cases sampleDF
      [Val.int 2024, Val.int 2024] [Val.int 3, Val.int 11] [Val.int 7, Val.int 25]
      [Val.str "2024-03-07T10:00", Val.str "2024-11-25"]
      [2024, 2024] [3, 11] [7, 25]
      (by decide) rfl rfl rfl rfl rfl rfl (by decide) 0 (by decide)
  exact h.1 [Val.str "10:00", Val.na] rfl (by decide)

/-- Claim C4 counterexample: at `Year = 5`, `Month = 6`, `Day = 7` the
code produces the string `"5-06-07"`, which is not the claimed
`"{year:04d}-{month:02d}-{day:02d}"` rendering (that would be
`"0005-06-07"`): the year is not zero-padded to 4 digits. -/
theorem C4_year_not_zero_padded :
    date_to_iso ⟨1, [("Year", [Val.int 5]), ("Month", [Val.int 6]), ("Day", [Val.int 7])]⟩ =
      some [Val.str "5-06-07"] ∧
    "5-06-07" ≠
      zfill 4 (toString (5 : Int)) ++ "-" ++ zfill 2 (toString (6 : Int)) ++ "-" ++
        zfill 2 (toString (7 : Int)) := by
  constructor <;> decide

/-- Claim C4 (amended): for every row with integer-coercible `Year`,
`Month` and `Day` values, the composed date part is the year rendered as
a plain decimal string with no zero-padding, then `"-"`, the month
zero-padded to 2 digits, `"-"`, and the day zero-padded to 2 digits. -/
theorem C4_date_part_format (df : Table) (ycol mcol dcol res : List Val)
    (ys ms ds : List Int) (hwf : df.wf = true)
    (hY : df.getCol "Year" = some ycol) (hM : df.getCol "Month" = some mcol)
    (hD : df.getCol "Day" = some dcol)
    (hys : ycol.mapM Val.toInt? = some ys) (hms : mcol.mapM Val.toInt? = some ms)
    (hds : dcol.mapM Val.toInt? = some ds)
    (hres : date_to_iso df = some res) (i : Nat) (hi : i < df.nrows) :
    res.getD i Val.na =
      Val.str (toString (ys.getD i 0) ++ "-" ++ zfill 2 (toString (ms.getD i 0)) ++ "-" ++
        zfill 2 (toString (ds.getD i 0)) ++ (xtimeList df).getD i "") := by
  rw [date_to_iso_getD df ycol mcol dcol res ys ms ds hwf hY hM hD hys hms hds hres i hi]
  rfl

/-- Concrete instance of `C4_date_part_format`: row 1 of `sampleDF`. -/
theorem C4_witness :
    ([Val.str "2024-03-07T10:00", Val.str "2024-11-25"] : List Val).getD 1 Val.na =
      Val.str (toString (2024 : Int) ++ "-" ++ zfill 2 (toString (11 : Int)) ++ "-" ++
        zfill 2 (toString (25 : Int)) ++ (xtimeList sampleDF).getD 1 "") :=
  C4_date_part_format sampleDF
    [Val.int 2024, Val.int 2024] [Val.int 3, Val.int 11] [Val.int 7, Val.int 25]
    [Val.str "2024-03-07T10:00", Val.str "2024-11-25"]
    [2024, 2024] [3, 11] [7, 25]
    (by decide) rfl rfl rfl rfl rfl rfl (by decide) 1 (by decide)

/-- Claim C7: for every sequence of input units, aggregation concatenates
the per-unit transformed tables in the order the units were given,
preserving original row order within each unit: the aggregate equals
`concatTables` of the in-order per-unit outputs, its row count is the sum
of the units’ row counts, and every output column is the in-order
concatenation (`flatten`) of the per-unit column values. -/
theorem C7_concat_order (units : List (Table × String)) (ts : List Table)
    (h : units.mapM (fun u => transform_one_file SPEC u.1 u.2) = some ts) :
    aggregate units = some (concatTables ts) ∧
    (concatTables ts).nrows = (units.map (fun u => u.1.nrows)).sum ∧
    ∀ name cols, ts ≠ [] → ts.mapM (fun t => t.getCol name) = some cols →
      (concatTables ts).getCol name = some cols.flatten := by
  refine ⟨?_, ?_, ?_⟩
  · unfold aggregate
    rw [h]
    rfl
  · rw [concatTables_nrows, mapM_transform_nrows units ts h]
  · intro name cols hne hcols
    cases ts with
    | nil => exact absurd rfl hne
    | cons t rest =>
      rw [List.mapM_cons] at hcols
      cases hc : t.getCol name with
      | none => rw [hc] at hcols; simp at hcols
      | some c =>
        rw [hc] at hcols
        cases hcs : rest.mapM (fun t => t.getCol name) with
        | none => rw [hcs] at hcols; simp at hcols
        | some cs =>
          rw [hcs] at hcols
          simp at hcols
          subst hcols
          show (List.foldl concat2 t rest).getCol name = _
          rw [foldl_concat2_getCol name rest t c cs hc hcs]
          simp

/-- Concrete instance of `C7_concat_order`: a two-row unit followed by a
three-row unit yields five rows, the first unit's rows first, in original
order, then the second unit's. -/
theorem C7_witness :
    aggregate [(sampleDF, "Abiotics Sea"), (sampleDF3, "Abiotics Pool")] =
      some (concatTables [sampleOut, sampleOut3]) ∧
    (concatTables [sampleOut, sampleOut3]).nrows = 5 ∧
    (concatTables [sampleOut, sampleOut3]).getCol "Station" =
      some [Val.str "Abiotics Sea", Val.str "Abiotics Sea",
            Val.str "Abiotics Pool", Val.str "Abiotics Pool", Val.str "Abiotics Pool"] := by
  have h := C7_concat_order [(sampleDF, "Abiotics Sea"), (sampleDF3, "Abiotics Pool")]
      [sampleOut, sampleOut3] (by decide)
  refine ⟨h.1, by rw [h.2.1]; rfl, ?_⟩
  have hs := h.2.2 "Station"
      [[Val.str "Abiotics Sea", Val.str "Abiotics Sea"],
       [Val.str "Abiotics Pool", Val.str "Abiotics Pool", Val.str "Abiotics Pool"]]
      (by decide) (by decide)
  simpa using hs
